import Mathlib

/-!
Verification of the Veyra OBD helper module (request builders, ELM327 line
parsing, PID/DTC/VIN/Mode-06/UDS decoders) against its specification.

JavaScript strings are embedded as Lean `String`/`List Char`, JS numbers
carrying byte values as `Nat`, and the one place where JS 32-bit signed
shift semantics matter (the UDS odometer accumulator) as `Int` with an
explicit wrap at 2^32.
-/

set_option autoImplicit false

namespace Veyra

/-! ### Small numeric/string helpers shared by the embedded functions -/

/-- Uppercase hexadecimal digit character for `n < 16`
(the source renders with `toString(16)` and then `toUpperCase()`). -/
def hexDigitU (n : Nat) : Char :=
  if n < 10 then Char.ofNat (48 + n) else Char.ofNat (55 + n)

/-- Fuel-driven hexadecimal rendering of a natural number, most significant
digit first.  Fuel `n + 1` always suffices. -/
def toHexCore : Nat → Nat → List Char
  | 0, _ => []
  | f + 1, n => if n < 16 then [hexDigitU n] else toHexCore f (n / 16) ++ [hexDigitU (n % 16)]

/-- Embedding of `n.toString(16).toUpperCase()` of JavaScript for a nonnegative integer. -/
def toHexUpper (n : Nat) : String :=
  String.mk (toHexCore (n + 1) n)

/-- Embedding of `s.padStart(n, c)` of JavaScript. -/
def padStart (s : String) (n : Nat) (c : Char) : String :=
  String.mk (List.replicate (n - s.length) c) ++ s

/-- Embedding of `s.toUpperCase()` of JavaScript, for ASCII content. -/
def jsToUpperAscii (s : String) : String :=
  String.mk (s.data.map Char.toUpper)

/-! ### DTC decoding (`decodeDtcs` in the source)

```js
const DTC_LETTERS = ["P", "C", "B", "U"];
for (let i = 0; i + 1 < bytes.length; i += 2) {
  const A = bytes[i]; const B = bytes[i+1];
  if (A === 0x00 && B === 0x00) break;
  const typeIdx = (A & 0b11000000) >>> 6;
  const letter = DTC_LETTERS[typeIdx] || "P";
  const d1 = (A & 0b00110000) >>> 4; const d2 = A & 0b00001111;
  const d3 = (B & 0b11110000) >>> 4; const d4 = B & 0b00001111;
  out.push(`${letter}${d1}${d2}${d3}${d4}`);
}
```
-/

def DTC_LETTERS : List String := ["P", "C", "B", "U"]

/-- The five(-plus)-character code pushed for one byte pair `(A, B)`.
Digits are rendered in decimal exactly as the template literal does. -/
def dtcCode (A B : Nat) : String :=
  let typeIdx := (A &&& 0xC0) >>> 6
  let letter := DTC_LETTERS.getD typeIdx ("P")
  let d1 := (A &&& 0x30) >>> 4
  let d2 := A &&& 0x0F
  let d3 := (B &&& 0xF0) >>> 4
  let d4 := B &&& 0x0F
  letter ++ toString d1 ++ toString d2 ++ toString d3 ++ toString d4

/-- Embedding of `decodeDtcs`: walk the bytes two at a time (`i + 1 < length`), stop at the
`(0x00, 0x00)` terminator, otherwise emit `dtcCode`. -/
def decodeDtcs : List Nat → List String
  | A :: B :: rest => if A = 0 ∧ B = 0 then [] else dtcCode A B :: decodeDtcs rest
  | _ => []

/-- Spec-side description of the same traversal: chunk into byte pairs
(dropping a trailing unpaired byte), keep pairs up to the terminator,
map each pair to its code. -/
def dtcPairs : List Nat → List (Nat × Nat)
  | A :: B :: rest => (A, B) :: dtcPairs rest
  | _ => []

def decodeDtcsSpec (bytes : List Nat) : List String :=
  ((dtcPairs bytes).takeWhile (fun p => !(p.1 == 0 && p.2 == 0))).map
    (fun p => dtcCode p.1 p.2)

/-! ### Theorems for claims C1 and C5 -/

/-- Claim C1 as stated is false: the first byte `0x24` has top two bits `00`,
so the letter index is 0 (`P`), not 1 (`C`). -/
theorem decodeDtcs_2463_not_C : decodeDtcs [0x24, 0x63] ≠ ["C2463"] := by
  decide

/-- Claim C1 (amended): `decodeDtcs [0x24, 0x63]` yields exactly `["P2463"]` —
letter index `(0x24 >>> 6) &&& 3 = 0` selects `"P"` and the digits come from
the nibble splits of `0x24` and `0x63`. -/
theorem decodeDtcs_2463 : decodeDtcs [0x24, 0x63] = ["P2463"] := by
  decide

/-- Claim C5: `decodeDtcs` consumes its input as byte pairs left to right,
stops (emitting nothing further) at the pair `(0, 0)`, maps each kept pair to
the letter `P`/`C`/`B`/`U` indexed by the top two bits of `A` followed by the
four nibble digits, and ignores a trailing unpaired byte; in particular
`decodeDtcs [0x01, 0x01, 0x00, 0x00] = ["P0101"]`. -/
theorem decodeDtcs_pairs_spec (bytes : List Nat) :
    decodeDtcs bytes = decodeDtcsSpec bytes ∧
    decodeDtcs [0x01, 0x01, 0x00, 0x00] = ["P0101"] := by
  constructor
  · induction bytes using decodeDtcs.induct with
    | case1 A B rest h =>
      simp only [decodeDtcs, decodeDtcsSpec, dtcPairs, List.takeWhile, h, if_pos h]
      have hA : (A == 0) = true := by simp [h.1]
      have hB : (B == 0) = true := by simp [h.2]
      simp [hA, hB]
    | case2 A B rest h ih =>
      simp only [decodeDtcs, decodeDtcsSpec, dtcPairs, List.takeWhile, if_neg h]
      have hAB : ((A == 0 && B == 0) : Bool) = false := by
        rcases Decidable.em (A = 0) with hA | hA
        · rcases Decidable.em (B = 0) with hB | hB
          · exact absurd ⟨hA, hB⟩ h
          · simp [hB]
        · simp [hA]
      simp only [hAB, Bool.not_false, List.map_cons]
      exact congrArg _ ih
    | case3 bytes h =>
      cases bytes with
      | nil => rfl
      | cons A tl =>
        cases tl with
        | nil => rfl
        | cons B rest => exact absurd rfl (h A B rest)
  · decide

/-! ### VIN decoding (`decodeVinFromBytes` in the source)

```js
const ascii = bytes.filter(b => b >= 0x20 && b <= 0x7e)
                   .map(b => String.fromCharCode(b)).join("");
if (ascii.length >= 17) return ascii.slice(0, 17);
return ascii;
```
-/

def decodeVinFromBytes (bytes : List Nat) : String :=
  let ascii := (bytes.filter (fun b => decide (0x20 ≤ b ∧ b ≤ 0x7e))).map Char.ofNat
  if 17 ≤ ascii.length then String.mk (ascii.take 17) else String.mk ascii

/-- The byte list of an ASCII string, as the example feeds `decodeVin`. -/
def asciiBytes (s : String) : List Nat :=
  s.data.map Char.toNat

/-- Claim C8: `decodeVinFromBytes` keeps exactly the printable-ASCII bytes
(`0x20`–`0x7E`) in order and returns the first 17 of the resulting characters
(the whole string when fewer than 17 remain, so the result never exceeds 17
characters); on the bytes of `"WVWZZZ1JZXW000001EXTRA"` it returns exactly the
first 17 characters. -/
theorem decodeVin_take17 (bytes : List Nat) :
    decodeVinFromBytes bytes =
      String.mk (((bytes.filter (fun b => decide (0x20 ≤ b ∧ b ≤ 0x7e))).map Char.ofNat).take 17) ∧
    (decodeVinFromBytes bytes).length ≤ 17 ∧
    decodeVinFromBytes (asciiBytes ("WVWZZZ1JZXW000001EXTRA")) = "WVWZZZ1JZXW000001" := by
  refine ⟨?_, ?_, by decide⟩
  · simp only [decodeVinFromBytes]
    split
    · rfl
    · next hlt =>
      rw [List.take_of_length_le (Nat.le_of_lt (Nat.lt_of_not_le hlt))]
  · simp only [decodeVinFromBytes]
    split
    · next hge =>
      show (List.take 17 _).length ≤ 17
      simp
    · next hlt =>
      exact Nat.le_of_lt (Nat.lt_of_not_le hlt)

/-! ### Mode 06 record decoding (`decodeMode06Records` in the source)

```js
for (let i = 0; i + 7 < bytes.length; i += 8) {
  const tid = bytes[i]; const cid = bytes[i+1];
  const value = (bytes[i+2] << 8) + bytes[i+3];
  const min = (bytes[i+4] << 8) + bytes[i+5];
  const max = (bytes[i+6] << 8) + bytes[i+7];
  out.push({ tid, cid, value, min, max, pass: value >= min && value <= max });
}
```
-/

structure Mode06Record where
  tid : Nat
  cid : Nat
  value : Nat
  min : Nat
  max : Nat
  pass : Bool
deriving DecidableEq, Repr

def decodeMode06Records : List Nat → List Mode06Record
  | t :: c :: v1 :: v2 :: m1 :: m2 :: x1 :: x2 :: rest =>
    let value := (v1 <<< 8) + v2
    let mn := (m1 <<< 8) + m2
    let mx := (x1 <<< 8) + x2
    { tid := t, cid := c, value := value, min := mn, max := mx,
      pass := decide (mn ≤ value) && decide (value ≤ mx) } :: decodeMode06Records rest
  | _ => []

/-- Spec-side view of one 8-byte group, read off the suffix of the byte list
that starts the group. -/
def mode06Group (l : List Nat) : Mode06Record :=
  let value := (l.getD 2 0 <<< 8) + l.getD 3 0
  let mn := (l.getD 4 0 <<< 8) + l.getD 5 0
  let mx := (l.getD 6 0 <<< 8) + l.getD 7 0
  { tid := l.getD 0 0, cid := l.getD 1 0, value := value, min := mn, max := mx,
    pass := decide (mn ≤ value) && decide (value ≤ mx) }

def mode06Default : Mode06Record :=
  mode06Group []

/-- Claim C9: `decodeMode06Records` emits one record per consecutive 8-byte
group — exactly `⌊length / 8⌋` records — where record `i` takes `tid`/`cid`
from bytes `8i`/`8i+1`, and `value`/`min`/`max` are the big-endian 16-bit
words at offsets `8i+2`, `8i+4`, `8i+6`, with `pass = (min ≤ value ∧
value ≤ max)`; trailing bytes fewer than 8 yield no record. -/
theorem decodeMode06_groups (bytes : List Nat) :
    (decodeMode06Records bytes).length = bytes.length / 8 ∧
    (∀ i, i < (decodeMode06Records bytes).length →
      (decodeMode06Records bytes).getD i mode06Default = mode06Group (bytes.drop (8 * i))) ∧
    (bytes.length < 8 → decodeMode06Records bytes = []) := by
  induction bytes using decodeMode06Records.induct with
  | case1 t c v1 v2 m1 m2 x1 x2 rest ih =>
    obtain ⟨ihlen, ihget, -⟩ := ih
    refine ⟨?_, ?_, ?_⟩
    · show (decodeMode06Records rest).length + 1 = (rest.length + 8) / 8
      rw [Nat.add_div_right rest.length (by norm_num), ihlen]
    · intro i hi
      cases i with
      | zero => rfl
      | succ j =>
        have hj : j < (decodeMode06Records rest).length := by
          simpa [decodeMode06Records] using Nat.lt_of_succ_lt_succ hi
        have hdrop :
            (t :: c :: v1 :: v2 :: m1 :: m2 :: x1 :: x2 :: rest).drop (8 * (j + 1)) =
              rest.drop (8 * j) := by
          rw [show 8 * (j + 1) = 8 + 8 * j by ring, ← List.drop_drop (8 * j) 8]
          rfl
        calc (decodeMode06Records (t :: c :: v1 :: v2 :: m1 :: m2 :: x1 :: x2 :: rest)).getD
              (j + 1) mode06Default
            = (decodeMode06Records rest).getD j mode06Default := rfl
          _ = mode06Group (rest.drop (8 * j)) := ihget j hj
          _ = mode06Group ((t :: c :: v1 :: v2 :: m1 :: m2 :: x1 :: x2 :: rest).drop
                (8 * (j + 1))) := by rw [hdrop]
    · intro hlen
      simp only [List.length_cons] at hlen
      omega
  | case2 bytes h =>
    have hz : decodeMode06Records bytes = [] := by
      cases bytes with
      | nil => rfl
      | cons a0 t0 => cases t0 with
        | nil => rfl
        | cons a1 t1 => cases t1 with
          | nil => rfl
          | cons a2 t2 => cases t2 with
            | nil => rfl
            | cons a3 t3 => cases t3 with
              | nil => rfl
              | cons a4 t4 => cases t4 with
                | nil => rfl
                | cons a5 t5 => cases t5 with
                  | nil => rfl
                  | cons a6 t6 => cases t6 with
                    | nil => rfl
                    | cons a7 t7 =>
                      exact absurd rfl (h a0 a1 a2 a3 a4 a5 a6 a7 t7)
    have hlen : bytes.length < 8 := by
      by_contra hge
      push_neg at hge
      obtain ⟨a0, t0, rfl⟩ : ∃ x l, bytes = x :: l := by
        cases bytes with | nil => simp at hge | cons x l => exact ⟨x, l, rfl⟩
      obtain ⟨a1, t1, rfl⟩ : ∃ x l, t0 = x :: l := by
        cases t0 with | nil => simp at hge | cons x l => exact ⟨x, l, rfl⟩
      obtain ⟨a2, t2, rfl⟩ : ∃ x l, t1 = x :: l := by
        cases t1 with | nil => simp at hge | cons x l => exact ⟨x, l, rfl⟩
      obtain ⟨a3, t3, rfl⟩ : ∃ x l, t2 = x :: l := by
        cases t2 with | nil => simp at hge | cons x l => exact ⟨x, l, rfl⟩
      obtain ⟨a4, t4, rfl⟩ : ∃ x l, t3 = x :: l := by
        cases t3 with | nil => simp at hge | cons x l => exact ⟨x, l, rfl⟩
      obtain ⟨a5, t5, rfl⟩ : ∃ x l, t4 = x :: l := by
        cases t4 with | nil => simp at hge | cons x l => exact ⟨x, l, rfl⟩
      obtain ⟨a6, t6, rfl⟩ : ∃ x l, t5 = x :: l := by
        cases t5 with | nil => simp at hge | cons x l => exact ⟨x, l, rfl⟩
      obtain ⟨a7, t7, rfl⟩ : ∃ x l, t6 = x :: l := by
        cases t6 with | nil => simp at hge | cons x l => exact ⟨x, l, rfl⟩
      exact h a0 a1 a2 a3 a4 a5 a6 a7 t7 rfl
    refine ⟨?_, ?_, fun _ => hz⟩
    · rw [hz, Nat.div_eq_of_lt hlen]
      rfl
    · intro i hi
      rw [hz] at hi
      exact absurd hi (by simp)

/-- Witness for C9 at a concrete 9-byte input: one record is produced (the
trailing ninth byte is dropped) and its fields follow the 8-byte group at
offset 0. -/
theorem decodeMode06_groups_witness :
    (decodeMode06Records [1, 2, 0, 5, 0, 3, 0, 9, 7]).length = 1 ∧
    (decodeMode06Records [1, 2, 0, 5, 0, 3, 0, 9, 7]).getD 0 mode06Default =
      mode06Group ([1, 2, 0, 5, 0, 3, 0, 9, 7].drop (8 * 0)) := by
  refine ⟨?_, (decodeMode06_groups [1, 2, 0, 5, 0, 3, 0, 9, 7]).2.1 0 (by decide)⟩
  have h := (decodeMode06_groups [1, 2, 0, 5, 0, 3, 0, 9, 7]).1
  simpa using h

/-! ### UDS helpers (`udsBuildReadDid`, `udsDecodeDid` in the source) -/

/-- The character class `\s` of JavaScript regular expressions (also the set
trimmed by `String.prototype.trim`). -/
def isJsWs (c : Char) : Bool :=
  let n := c.toNat
  decide (n = 32 ∨ n = 9 ∨ n = 10 ∨ n = 11 ∨ n = 12 ∨ n = 13 ∨ n = 160 ∨ n = 0x1680 ∨
    (0x2000 ≤ n ∧ n ≤ 0x200A) ∨ n = 0x2028 ∨ n = 0x2029 ∨ n = 0x202F ∨ n = 0x205F ∨
    n = 0x3000 ∨ n = 0xFEFF)

/-- Embedding of `s.trim()` of JavaScript, over the character list. -/
def jsTrimList (cs : List Char) : List Char :=
  ((cs.dropWhile isJsWs).reverse.dropWhile isJsWs).reverse

/-- Embedding of `data.map(b => printable ? fromCharCode(b) : "").join("")` — mapping a
byte to the empty string and joining is dropping it. -/
def printableString (data : List Nat) : List Char :=
  data.filterMap (fun b => if 0x20 ≤ b ∧ b ≤ 0x7e then some (Char.ofNat b) else none)

/-- Embedding of `udsBuildReadDid(didHex)`:
```js
return `22${didHex.toUpperCase()}`;
``` -/
def udsBuildReadDid (didHex : String) : String :=
  "22" ++ jsToUpperAscii didHex

structure UdsDidResult where
  did : Nat
  label : String
  value : String
deriving DecidableEq, Repr

/-- Reading of an unsigned 32-bit value back as a signed one (`ToInt32`). -/
def int32OfUint32 (u : Int) : Int :=
  if u < 2147483648 then u else u - 4294967296

/-- Embedding of `v << 8` of JavaScript: `ToInt32(v)`, shift the 32-bit pattern left by 8
discarding overflow, read the result back as a signed 32-bit integer. -/
def jsShl8 (v : Int) : Int :=
  int32OfUint32 (v % 4294967296 * 256 % 4294967296)

/-- The odometer accumulator of the `F18C` branch:
```js
let v = 0;
for (const b of data) v = (v << 8) + b;
``` -/
def udsOdoValue (data : List Nat) : Int :=
  data.foldl (fun (v : Int) (b : Nat) => jsShl8 v + (b : Int)) 0

/-- Embedding of `udsDecodeDid(did, data)` with its four branches on the zero-padded
uppercase hex rendering of `did`. -/
def udsDecodeDid (did : Nat) (data : List Nat) : UdsDidResult :=
  let hex := padStart (toHexUpper did) 4 '0'
  if hex = "F190" then
    { did := did, label := "VIN (UDS)", value := String.mk (jsTrimList (printableString data)) }
  else if hex = "F18C" then
    { did := did, label := "Odometer", value := toString (udsOdoValue data) ++ " km" }
  else if hex = "F187" then
    { did := did, label := "ECU Serial", value := String.mk (jsTrimList (printableString data)) }
  else
    { did := did, label := "DID 0x" ++ hex,
      value := String.intercalate (" ") (data.map (fun b => padStart (toHexUpper b) 2 '0')) }

/-- Spec-side value: the big-endian unsigned integer accumulation of the data
bytes, with no 32-bit wrap. -/
def beValue (data : List Nat) : Nat :=
  data.foldl (fun a b => a * 256 + b) 0

/-! ### Theorems for claims C2 and C3 -/

/-- Claim C2 as stated is false: `udsBuildReadDid` does not zero-pad the DID,
so the one-digit DID `"1"` yields `"221"` of length 3, not `"220001"`. -/
theorem udsBuildReadDid_no_pad :
    udsBuildReadDid ("1") = "221" ∧ (udsBuildReadDid ("1")).length ≠ 6 ∧
    udsBuildReadDid ("1") ≠ "220001" := by
  decide

/-- Claim C2 (amended): for every DID hex string, `udsBuildReadDid` returns
`"22"` followed by the DID uppercased with no zero-padding, so the result has
length `2 + |didHex|`, which is 6 exactly when the DID has 4 digits. -/
theorem udsBuildReadDid_chars (didHex : String) :
    (udsBuildReadDid didHex).data = '2' :: '2' :: didHex.data.map Char.toUpper ∧
    (udsBuildReadDid didHex).length = 2 + didHex.length ∧
    ((udsBuildReadDid didHex).length = 6 ↔ didHex.length = 4) := by
  have hdata : (udsBuildReadDid didHex).data = '2' :: '2' :: didHex.data.map Char.toUpper := by
    simp [udsBuildReadDid, jsToUpperAscii, String.data_append]
  have hlen : (udsBuildReadDid didHex).length = 2 + didHex.length := by
    show (udsBuildReadDid didHex).data.length = 2 + didHex.data.length
    rw [hdata]
    simp only [List.length_cons, List.length_map]
    omega
  exact ⟨hdata, hlen, by rw [hlen]; omega⟩

/-- Folding `x ↦ x * 256 + b` only increases the accumulator. -/
theorem le_foldl_be (l : List Nat) : ∀ x : Nat, x ≤ l.foldl (fun y b => y * 256 + b) x := by
  induction l with
  | nil => intro x; exact Nat.le_refl x
  | cons b l ih =>
    intro x
    refine Nat.le_trans ?_ (ih (x * 256 + b))
    calc x = x * 1 := (Nat.mul_one x).symm
      _ ≤ x * 256 := Nat.mul_le_mul_left x (by norm_num)
      _ ≤ x * 256 + b := Nat.le_add_right _ b

/-- While the big-endian accumulation stays below `2^31`, the JavaScript
32-bit shift accumulator computes exactly it. -/
theorem odo_foldl_eq (l : List Nat) :
    ∀ a : Nat, l.foldl (fun x b => x * 256 + b) a < 2147483648 →
      l.foldl (fun (v : Int) (b : Nat) => jsShl8 v + (b : Int)) (a : Int) =
        ((l.foldl (fun x b => x * 256 + b) a : Nat) : Int) := by
  induction l with
  | nil => intro a _; rfl
  | cons b l ih =>
    intro a h
    simp only [List.foldl_cons] at h ⊢
    have hstep : a * 256 + b < 2147483648 :=
      Nat.lt_of_le_of_lt (le_foldl_be l (a * 256 + b)) h
    have hb1 : a * 256 < 2147483648 := by omega
    have hb2 : a < 4294967296 := by omega
    have hb3 : a * 256 < 4294967296 := by omega
    have hshift : jsShl8 (a : Int) + (b : Int) = ((a * 256 + b : Nat) : Int) := by
      have ha : (a : Int) % 4294967296 = (a : Int) :=
        Int.emod_eq_of_lt (by positivity) (by exact_mod_cast hb2)
      have ha2 : (a : Int) * 256 % 4294967296 = (a : Int) * 256 :=
        Int.emod_eq_of_lt (by positivity) (by exact_mod_cast hb3)
      have hlt : (a : Int) * 256 < 2147483648 := by exact_mod_cast hb1
      simp only [jsShl8, int32OfUint32, ha, ha2, if_pos hlt]
      push_cast
      ring
    rw [hshift]
    exact ih (a * 256 + b) h

/-- `udsDecodeDid` at DID `0xF18C` always takes the odometer branch. -/
theorem udsDecodeDid_F18C (data : List Nat) :
    udsDecodeDid 0xF18C data =
      { did := 0xF18C, label := "Odometer", value := toString (udsOdoValue data) ++ " km" } :=
  rfl

/-- Claim C3 as stated is false for data lists of length four and more: the
accumulator uses the 32-bit signed shift of JavaScript, so on
`[0xFF, 0xFF, 0xFF, 0xFF]` the value wraps to `"-1 km"` instead of the
big-endian unsigned `"4294967295 km"`. -/
theorem udsDecodeDid_odometer_wraps :
    (udsDecodeDid 0xF18C [0xFF, 0xFF, 0xFF, 0xFF]).value = "-1 km" ∧
    toString (beValue [0xFF, 0xFF, 0xFF, 0xFF]) ++ " km" = "4294967295 km" ∧
    (udsDecodeDid 0xF18C [0xFF, 0xFF, 0xFF, 0xFF]).value ≠
      toString (beValue [0xFF, 0xFF, 0xFF, 0xFF]) ++ " km" := by
  decide

/-- Claim C3 (amended): `udsDecodeDid 0xF18C data` is labeled `"Odometer"`
and, whenever the big-endian unsigned accumulation of the data bytes is below
`2^31` (in particular for at most 3 data bytes), its value is that number in
decimal suffixed `" km"`. -/
theorem udsDecodeDid_odometer (data : List Nat) (h : beValue data < 2147483648) :
    (udsDecodeDid 0xF18C data).label = "Odometer" ∧
    (udsDecodeDid 0xF18C data).value = toString (beValue data) ++ " km" := by
  rw [udsDecodeDid_F18C]
  refine ⟨rfl, ?_⟩
  show toString (udsOdoValue data) ++ " km" = toString (beValue data) ++ " km"
  have := odo_foldl_eq data 0 h
  simp only [udsOdoValue, beValue] at this ⊢
  rw [Nat.cast_zero] at this
  rw [this]
  rfl

/-- Witness for C3 (amended) at `[0x01, 0x86, 0xA0]`: 100000 km. -/
theorem udsDecodeDid_odometer_witness :
    (udsDecodeDid 0xF18C [0x01, 0x86, 0xA0]).label = "Odometer" ∧
    (udsDecodeDid 0xF18C [0x01, 0x86, 0xA0]).value =
      toString (beValue [0x01, 0x86, 0xA0]) ++ " km" :=
  udsDecodeDid_odometer [0x01, 0x86, 0xA0] (by decide)

/-! ### ELM327 line cleaning (`cleanLine` in the source)

```js
return line.replace(/\r|\n/g, " ").replace(/>/g, " ")
  .replace(/SEARCHING\.?/gi, " ").replace(/BUS\s+INIT\.?/gi, " ")
  .replace(/STOPPED/gi, " ").replace(/\s+/g, " ").trim();
```
Each global regex replace is a left-to-right non-overlapping scan; the
scanners below take a fuel argument that starts at the length of the input,
which every step strictly decreases, so the fuel never runs out. -/

/-- Case-insensitive literal match (the patterns are ASCII letters, where
JavaScript `/i` folding is plain ASCII uppercasing): returns the rest of the
input after the pattern. -/
def matchCI : List Char → List Char → Option (List Char)
  | [], cs => some cs
  | _ :: _, [] => none
  | p :: ps, c :: cs => if c.toUpper = p then matchCI ps cs else none

/-- Consume the optional trailing `\.?` of a pattern. -/
def dropDot : List Char → List Char
  | '.' :: r => r
  | r => r

def scanSearching : Nat → List Char → List Char
  | 0, cs => cs
  | _ + 1, [] => []
  | f + 1, c :: cs =>
    match matchCI ['S', 'E', 'A', 'R', 'C', 'H', 'I', 'N', 'G'] (c :: cs) with
    | some r => ' ' :: scanSearching f (dropDot r)
    | none => c :: scanSearching f cs

/-- Matching of `BUS\s+INIT\.?` at the head of the input. -/
def matchBusInit (cs : List Char) : Option (List Char) :=
  match matchCI ['B', 'U', 'S'] cs with
  | none => none
  | some r1 =>
    match r1 with
    | [] => none
    | w :: _ =>
      if isJsWs w then
        match matchCI ['I', 'N', 'I', 'T'] (r1.dropWhile isJsWs) with
        | none => none
        | some r2 => some (dropDot r2)
      else none

def scanBusInit : Nat → List Char → List Char
  | 0, cs => cs
  | _ + 1, [] => []
  | f + 1, c :: cs =>
    match matchBusInit (c :: cs) with
    | some r => ' ' :: scanBusInit f r
    | none => c :: scanBusInit f cs

def scanStopped : Nat → List Char → List Char
  | 0, cs => cs
  | _ + 1, [] => []
  | f + 1, c :: cs =>
    match matchCI ['S', 'T', 'O', 'P', 'P', 'E', 'D'] (c :: cs) with
    | some r => ' ' :: scanStopped f r
    | none => c :: scanStopped f cs

/-- Embedding of `replace(/\s+/g, " ")`: each maximal whitespace run becomes one space. -/
def collapseWs : Nat → List Char → List Char
  | 0, cs => cs
  | _ + 1, [] => []
  | f + 1, c :: cs =>
    if isJsWs c then ' ' :: collapseWs f (cs.dropWhile isJsWs)
    else c :: collapseWs f cs

def cleanLine (line : String) : String :=
  let s1 := line.data.map (fun c => if c = '\r' ∨ c = '\n' then ' ' else c)
  let s2 := s1.map (fun c => if c = '>' then ' ' else c)
  let s3 := scanSearching s2.length s2
  let s4 := scanBusInit s3.length s3
  let s5 := scanStopped s4.length s4
  let s6 := collapseWs s5.length s5
  String.mk (jsTrimList s6)

/-! ### Hex pair extraction (`hexPairsFrom`, `toBytes` in the source) -/

def isHexChar (c : Char) : Bool :=
  let n := c.toNat
  decide ((48 ≤ n ∧ n ≤ 57) ∨ (65 ≤ n ∧ n ≤ 70) ∨ (97 ≤ n ∧ n ≤ 102))

/-- The global scan of the two-hex-character regex: at each position try to match two
hex characters; on success consume both, otherwise advance one character.
The `.map(t => t.toUpperCase())` of the source is fused into the token. -/
def hexTokens : List Char → List String
  | a :: b :: rest =>
    if isHexChar a && isHexChar b then String.mk [a.toUpper, b.toUpper] :: hexTokens rest
    else hexTokens (b :: rest)
  | _ => []

/-- Embedding of `line.includes(":") ? line.split(":").pop() || line : line` — the part
after the last colon, except that an empty final part (falsy) falls back to
the whole line. -/
def afterLastColon (cs : List Char) : List Char :=
  if cs.contains ':' then
    let t := (cs.reverse.takeWhile (fun c => c != ':')).reverse
    if t.isEmpty then cs else t
  else cs

/-- Embedding of `t.length === 2 && t.charAt(0) === "4" && /^[0-9A-F]$/.test(t.charAt(1))`. -/
def isPositiveResp (t : String) : Bool :=
  match t.data with
  | [c0, c1] =>
    c0 == '4' && (decide ('0' ≤ c1 ∧ c1 ≤ '9') || decide ('A' ≤ c1 ∧ c1 ≤ 'F'))
  | _ => false

def hexPairsFrom (line : String) : List String :=
  let tokens := hexTokens (afterLastColon line.data)
  match tokens.findIdx? isPositiveResp with
  | some i => tokens.drop i
  | none => tokens

def hexValN (n : Nat) : Nat :=
  if 48 ≤ n ∧ n ≤ 57 then n - 48
  else if 97 ≤ n ∧ n ≤ 102 then n - 87
  else if 65 ≤ n ∧ n ≤ 70 then n - 55
  else 0

/-- Embedding of `parseInt(h, 16)` on the two-hex-digit tokens produced by `hexPairsFrom`
(`none` stands for `NaN` on anything else). -/
def parseHexByte (s : String) : Option Nat :=
  match s.data with
  | [a, b] =>
    if isHexChar a && isHexChar b then some (hexValN a.toNat * 16 + hexValN b.toNat) else none
  | _ => none

/-- Embedding of `hexPairs.map(h => parseInt(h, 16)).filter(n => !Number.isNaN(n))`. -/
def toBytes (hs : List String) : List Nat :=
  hs.filterMap parseHexByte

/-! ### `parseElmLines` -/

structure ObdResponse where
  service : String
  pid : Option String
  data : List Nat
  raw : String
deriving DecidableEq, Repr

/-- The body of the `for (const raw of lines)` loop: at most one response per
line, `none` for every `continue`. -/
def parseLine (raw : String) : Option ObdResponse :=
  let l := cleanLine raw
  if l.isEmpty then none
  else
    let pairs := hexPairsFrom l
    if pairs.length < 2 then none
    else
      let bytes := toBytes pairs
      if bytes.length < 2 then none
      else
        let resp := bytes.headD 0
        if resp < 0x40 then none
        else
          let service := padStart (toHexUpper (resp - 0x40)) 2 '0'
          if service = "01" ∨ service = "09" then
            if bytes.length < 3 then none
            else
              some { service := service,
                     pid := some (padStart (toHexUpper (bytes.getD 1 0)) 2 '0'),
                     data := bytes.drop 2, raw := l }
          else
            some { service := service, pid := none, data := bytes.drop 1, raw := l }

def parseElmLines (lines : List String) : List ObdResponse :=
  lines.filterMap parseLine

/-! ### Helper lemmas about the parsed bytes and the service rendering -/

theorem hexValN_lt (n : Nat) : hexValN n < 16 := by
  unfold hexValN
  split
  · omega
  · split
    · omega
    · split <;> omega

theorem parseHexByte_lt {s : String} {v : Nat} (h : parseHexByte s = some v) : v < 256 := by
  unfold parseHexByte at h
  split at h
  · next a b heq =>
    split at h
    · injection h with hv
      have ha := hexValN_lt a.toNat
      have hb := hexValN_lt b.toNat
      omega
    · exact absurd h (by simp)
  · exact absurd h (by simp)

theorem mem_toBytes_lt {hs : List String} {b : Nat} (hb : b ∈ toBytes hs) : b < 256 := by
  obtain ⟨s, -, hp⟩ := List.mem_filterMap.mp hb
  exact parseHexByte_lt hp

theorem headD_mem {l : List Nat} (h : 0 < l.length) : l.headD 0 ∈ l := by
  cases l with
  | nil => simp at h
  | cons a t => simp

theorem padStart_length (s : String) (n : Nat) (c : Char) :
    (padStart s n c).length = max n s.length := by
  show (String.mk (List.replicate (n - s.length) c) ++ s).length = max n s.length
  rw [String.length_append]
  show (List.replicate (n - s.length) c).length + s.length = max n s.length
  rw [List.length_replicate]
  omega

theorem toHexCore_succ (f n : Nat) :
    toHexCore (f + 1) n =
      if n < 16 then [hexDigitU n] else toHexCore f (n / 16) ++ [hexDigitU (n % 16)] :=
  rfl

theorem toHexCore_small {f m : Nat} (hf : 1 ≤ f) (hm : m < 16) :
    (toHexCore f m).length = 1 := by
  cases f with
  | zero => omega
  | succ f' =>
    rw [toHexCore_succ, if_pos hm]
    rfl

theorem toHexUpper_length_le (n : Nat) (h : n < 256) : (toHexUpper n).length ≤ 2 := by
  show (toHexCore (n + 1) n).length ≤ 2
  rw [toHexCore_succ]
  by_cases h16 : n < 16
  · rw [if_pos h16]
    simp
  · rw [if_neg h16, List.length_append, toHexCore_small (by omega) (by omega)]
    simp

theorem service_render_length {n : Nat} (h : n < 256) :
    (padStart (toHexUpper n) 2 '0').length = 2 := by
  rw [padStart_length]
  have := toHexUpper_length_le n h
  omega

/-! ### Theorems for claims C4, C6, C7 and C10 -/

/-- Structural facts about any response a single line can produce: the `pid`
field is filled exactly for services `"01"`/`"09"` (with at least one data
byte left), and the `service` field is the first parsed byte minus `0x40`
rendered as two-digit zero-padded uppercase hex. -/
theorem parseLine_spec (line : String) (r : ObdResponse) (h : parseLine line = some r) :
    (r.pid.isSome ↔ (r.service = "01" ∨ r.service = "09")) ∧
    (r.pid.isSome → 1 ≤ r.data.length) ∧
    r.service.length = 2 ∧
    r.service =
      padStart (toHexUpper ((toBytes (hexPairsFrom (cleanLine line))).headD 0 - 0x40)) 2 '0' := by
  simp only [parseLine] at h
  set l := cleanLine line with hldef
  set pairs := hexPairsFrom l with hpairsdef
  set bytes := toBytes pairs with hbytesdef
  clear_value l pairs bytes
  have hresp : bytes.length < 2 ∨ bytes.headD 0 < 256 := by
    rw [hbytesdef]
    by_cases hlb : (toBytes pairs).length < 2
    · exact Or.inl hlb
    · exact Or.inr (mem_toBytes_lt (headD_mem (by omega)))
  split at h
  · exact absurd h (by simp)
  · split at h
    · exact absurd h (by simp)
    · next hp2 =>
      split at h
      · exact absurd h (by simp)
      · next hb2 =>
        have hlt256 : bytes.headD 0 < 256 := hresp.resolve_left hb2
        split at h
        · exact absurd h (by simp)
        · next hge =>
          split at h
          · next hsv =>
            split at h
            · exact absurd h (by simp)
            · next hb3 =>
              injection h with h'
              subst h'
              refine ⟨by simpa using hsv, ?_, ?_, rfl⟩
              · intro _
                show 1 ≤ (bytes.drop 2).length
                rw [List.length_drop]
                omega
              · exact service_render_length (by omega)
          · next hsv =>
            injection h with h'
            subst h'
            refine ⟨by simpa using hsv, by simp, ?_, rfl⟩
            exact service_render_length (by omega)

/-- Claim C4: every `ObdResponse` produced by `parseElmLines` satisfies the
invariant — `pid` is present exactly when `service` is `"01"` or `"09"` (and
then at least one data byte follows), and `service` is the first parsed byte
of its line minus `0x40`, rendered as 2-digit zero-padded uppercase hex. -/
theorem parseElmLines_invariant (lines : List String) (r : ObdResponse)
    (hr : r ∈ parseElmLines lines) :
    (r.pid.isSome ↔ (r.service = "01" ∨ r.service = "09")) ∧
    (r.pid.isSome → 1 ≤ r.data.length) ∧
    r.service.length = 2 ∧
    ∃ line, line ∈ lines ∧ parseLine line = some r ∧
      r.service =
        padStart (toHexUpper ((toBytes (hexPairsFrom (cleanLine line))).headD 0 - 0x40)) 2 '0' := by
  obtain ⟨line, hline, hp⟩ := List.mem_filterMap.mp hr
  obtain ⟨h1, h2, h3, h4⟩ := parseLine_spec line r hp
  exact ⟨h1, h2, h3, line, hline, hp, h4⟩

/-- The response of the line `"41 0C 1A F8 >"`, used as concrete input. -/
def rpm41Response : ObdResponse :=
  { service := "01", pid := some ("0C"), data := [0x1A, 0xF8], raw := "41 0C 1A F8" }

/-- Witness for C4 at the single line `"41 0C 1A F8 >"`. -/
theorem parseElmLines_invariant_witness :
    (rpm41Response.pid.isSome ↔ (rpm41Response.service = "01" ∨ rpm41Response.service = "09")) ∧
    (rpm41Response.pid.isSome → 1 ≤ rpm41Response.data.length) ∧
    rpm41Response.service.length = 2 ∧
    ∃ line, line ∈ ["41 0C 1A F8 >"] ∧ parseLine line = some rpm41Response ∧
      rpm41Response.service =
        padStart (toHexUpper ((toBytes (hexPairsFrom (cleanLine line))).headD 0 - 0x40)) 2 '0' :=
  parseElmLines_invariant ["41 0C 1A F8 >"] rpm41Response
    ((show parseElmLines ["41 0C 1A F8 >"] = [rpm41Response] from rfl) ▸
      List.mem_singleton_self rpm41Response)

/-- Claim C6: on `["SEARCHING...", "41 0C 1A F8 >"]` exactly one response is
produced — service `"01"`, pid `"0C"`, data `[0x1A, 0xF8]` — the banner line
contributes nothing and the prompt `>` is stripped from the kept line. -/
theorem parseElmLines_example :
    parseElmLines ["SEARCHING...", "41 0C 1A F8 >"] = [rpm41Response] :=
  rfl

/-- A line whose cleaned form yields fewer than two hex-pair tokens produces
no response. -/
theorem parseLine_eq_none {line : String}
    (h : (hexPairsFrom (cleanLine line)).length < 2) : parseLine line = none := by
  simp [parseLine, h]

/-- Claim C7: a raw line from which fewer than 2 hex-pair tokens can be
extracted after sanitizing contributes no response to `parseElmLines` — the
parse of the remaining lines is unchanged (and, the functions being total,
no exception can arise). -/
theorem parseElmLines_skips_short (line : String) (rest : List String)
    (h : (hexPairsFrom (cleanLine line)).length < 2) :
    parseElmLines (line :: rest) = parseElmLines rest := by
  simp [parseElmLines, List.filterMap_cons, parseLine_eq_none h]

/-- Witness for C7 at the line `"NO DATA"` (its only hex-pair token is
`"DA"`). -/
theorem parseElmLines_skips_short_witness :
    (hexPairsFrom (cleanLine ("NO DATA"))).length < 2 ∧
    parseElmLines ["NO DATA", "41 0C 1A F8 >"] = parseElmLines ["41 0C 1A F8 >"] :=
  ⟨by decide, parseElmLines_skips_short ("NO DATA") ["41 0C 1A F8 >"] (by decide)⟩

/-- Claim C10: the UDS negative-response line `"7F 01 12"` has no token in
`0x40`–`0x4F`, yet its first byte `0x7F` passes the `resp < 0x40` guard, so
the line is kept: service `"3F"` (`0x7F − 0x40`), no pid, data `[0x01, 0x12]`. -/
theorem parseElmLines_7F :
    parseElmLines ["7F 01 12"] =
      [{ service := "3F", pid := none, data := [0x01, 0x12], raw := "7F 01 12" }] :=
  rfl

end Veyra
